import Mathlib

/-!
Verification of the mssql-uuid library (Go) against its specification.

The Go source is embedded shallowly:
* a Go `byte` is a `Nat` (with `< 256` hypotheses where the value range matters);
* a Go `[]byte` (and a Go `string`, which is a byte sequence) is a `List Nat`;
* a Go `[16]byte` UUID is a `List Nat` of length 16;
* fallible Go functions return `Except Err _` / `Option Err`;
* in-place receiver mutation becomes a returned value (plus explicit state
  pairs for the `NullUUID` wrapper, whose claims inspect the post-state).
-/

set_option maxRecDepth 100000

namespace Mssql

/-- Size of a UUID in bytes (Go constant `Size = 16`). -/
def Size : Nat := 16

/-- Size of a canonical representation of UUID in bytes (Go `CanonicalSize = 36`). -/
def CanonicalSize : Nat := 36

/-- Go `const ( _ byte = iota; V4 )`: the blank identifier takes 0 and `V4` takes 1. -/
def V4 : Nat := 1

/-- Go `VariantNCS byte = iota` (0). -/
def VariantNCS : Nat := 0

/-- Go `VariantRFC4122` (1). -/
def VariantRFC4122 : Nat := 1

/-- Go `VariantMicrosoft` (2). -/
def VariantMicrosoft : Nat := 2

/-- Go `VariantFuture` (3). -/
def VariantFuture : Nat := 3

/-- The UUID value: Go `type UUID [Size]byte`, a 16-byte array. -/
abbrev UUID := List Nat

/-- Go `var NilUUID = UUID{}`: the all-zero UUID. -/
def NilUUID : UUID := List.replicate Size 0

/-- Byte read `u[i]` on a Go byte slice/array (always in-bounds in the source
where we use it; out-of-range reads default to 0 here). -/
def getB (u : List Nat) (i : Nat) : Nat := u.getD i 0

/-- ASCII code of the hyphen character. -/
def dash : Nat := 45

/-- Error values of the library, one constructor per distinct `error` produced
by the Go source (`fmt.Errorf` sites and the `encoding/hex` errors it returns). -/
inductive Err : Type where
  /-- `encoding/hex` `InvalidByteError`, carrying the offending byte. -/
  | invalidByte (c : Nat)
  /-- `encoding/hex` `ErrLength` (odd-length input). -/
  | errLength
  /-- `fmt.Errorf("Incorrect UUID format %s", t)`. -/
  | incorrectFormat
  /-- `fmt.Errorf("Incorrect UUID length: %s", t)`. -/
  | incorrectLength
  /-- `fmt.Errorf("UUID must be exactly 16 bytes long, got %d bytes", ...)`. -/
  | binaryLength
  /-- `fmt.Errorf("cannot convert %T to UUID", src)`, carrying the type name. -/
  | cannotConvert (kind : String)
  /-- `encoding/json` unmarshal-into-string type error. -/
  | jsonTypeError
deriving DecidableEq, Repr

/-- Lower-case hex digit table of `encoding/hex` (`hextable = "0123456789abcdef"`):
digit `n < 16` to its ASCII code. -/
def hexDigitCode (n : Nat) : Nat := if n < 10 then 48 + n else 87 + n

/-- The `encoding/hex` encoding of one byte: two lower-case hex digit codes. -/
def byteHex (b : Nat) : List Nat := [hexDigitCode (b / 16), hexDigitCode (b % 16)]

/-- Go `hex.Encode`: each input byte becomes two hex digit codes. -/
def hexEncode (bs : List Nat) : List Nat := bs.flatMap byteHex

/-- Go `encoding/hex` `fromHexChar`: accepts `0-9`, `a-f`, `A-F`. -/
def fromHexChar (c : Nat) : Option Nat :=
  if 48 ≤ c ∧ c ≤ 57 then some (c - 48)
  else if 97 ≤ c ∧ c ≤ 102 then some (c - 97 + 10)
  else if 65 ≤ c ∧ c ≤ 70 then some (c - 65 + 10)
  else none

/-- Go `hex.Decode` on a byte string: decodes consecutive pairs of hex digits,
failing with `InvalidByteError` on the first non-hex character and with
`ErrLength` on a trailing odd byte (the source only calls it on even lengths). -/
def hexDecode : List Nat → Except Err (List Nat)
  | [] => .ok []
  | [_] => .error .errLength
  | c1 :: c2 :: rest =>
    match fromHexChar c1 with
    | none => .error (.invalidByte c1)
    | some a =>
      match fromHexChar c2 with
      | none => .error (.invalidByte c2)
      | some b =>
        match hexDecode rest with
        | .ok bs => .ok ((a * 16 + b) :: bs)
        | .error e => .error e

/-- Go `func (u UUID) Version() byte { return u[6] >> 4 }`. -/
def UUID.Version (u : UUID) : Nat := getB u 6 >>> 4

/-- Go `func (u UUID) Variant() byte`: classifies byte 8 by its top bits, testing
the 1-, 2- and 3-bit prefixes in order (the Go `case (u[8]>>5) == 0x07:
fallthrough` and `default:` branches both yield `VariantFuture`). -/
def UUID.Variant (u : UUID) : Nat :=
  if getB u 8 >>> 7 = 0 then VariantNCS
  else if getB u 8 >>> 6 = 2 then VariantRFC4122
  else if getB u 8 >>> 5 = 6 then VariantMicrosoft
  else VariantFuture

/-- Go `func (u *UUID) SetVersion(v byte) { u[6] = (u[6] & 0x0f) | (v << 4) }`
(`v << 4` is byte arithmetic, hence the `% 256`). -/
def UUID.SetVersion (u : UUID) (v : Nat) : UUID :=
  u.set 6 ((getB u 6 &&& 0x0f) ||| ((v <<< 4) % 256))

/-- Go `func (u *UUID) SetVariant(v byte)`: clears the top 1/2/3 bits of byte 8
and sets the variant pattern; unknown variants fall through to the Future
pattern. -/
def UUID.SetVariant (u : UUID) (v : Nat) : UUID :=
  if v = VariantNCS then u.set 8 ((getB u 8 &&& (0xff >>> 1)) ||| (0x00 <<< 7))
  else if v = VariantRFC4122 then u.set 8 ((getB u 8 &&& (0xff >>> 2)) ||| (0x02 <<< 6))
  else if v = VariantMicrosoft then u.set 8 ((getB u 8 &&& (0xff >>> 3)) ||| (0x06 <<< 5))
  else u.set 8 ((getB u 8 &&& (0xff >>> 3)) ||| (0x07 <<< 5))

/-- Go `func Equal(u1 UUID, u2 UUID) bool`: byte-wise equality. -/
def Equal (u1 u2 : UUID) : Bool := u1 == u2

/-- Go `func (u *UUID) String() string`: hex-encodes the byte groups
`u[0:4]`, `u[4:6]`, `u[6:8]`, `u[8:10]`, `u[10:]` into a 36-byte buffer with
hyphens written at offsets 8, 13, 18, 23. -/
def UUID.String (u : UUID) : List Nat :=
  hexEncode (u.take 4) ++ ([dash] ++ (hexEncode ((u.drop 4).take 2) ++
    ([dash] ++ (hexEncode ((u.drop 6).take 2) ++
      ([dash] ++ (hexEncode ((u.drop 8).take 2) ++
        ([dash] ++ hexEncode (u.drop 10))))))))

/-- Go `func (u *UUID) UnmarshalText(t []byte) error`: requires length 36 and
hyphens at 8, 13, 18, 23, then `hex.Decode`s the five groups (of character
lengths 8, 4, 4, 4, 12, starting at offsets 0, 9, 14, 19, 24 — the Go loop
skips one dash before each group after the first) into the receiver's
byte positions in order. -/
def UUID.UnmarshalText (t : List Nat) : Except Err UUID :=
  if t.length = CanonicalSize then
    if getB t 8 = dash ∧ getB t 13 = dash ∧ getB t 18 = dash ∧ getB t 23 = dash then
      match hexDecode (t.take 8) with
      | .error e => .error e
      | .ok g0 =>
        match hexDecode ((t.drop 9).take 4) with
        | .error e => .error e
        | .ok g1 =>
          match hexDecode ((t.drop 14).take 4) with
          | .error e => .error e
          | .ok g2 =>
            match hexDecode ((t.drop 19).take 4) with
            | .error e => .error e
            | .ok g3 =>
              match hexDecode ((t.drop 24).take 12) with
              | .error e => .error e
              | .ok g4 => .ok (g0 ++ (g1 ++ (g2 ++ (g3 ++ g4))))
    else .error .incorrectFormat
  else .error .incorrectLength

/-- Go `binary.LittleEndian.Uint16(data[i:])`. -/
def leUint16 (d : List Nat) (i : Nat) : Nat := getB d i + getB d (i + 1) * 256

/-- Go `binary.LittleEndian.Uint32(data[i:])`. -/
def leUint32 (d : List Nat) (i : Nat) : Nat :=
  getB d i + getB d (i + 1) * 256 + getB d (i + 2) * 65536 + getB d (i + 3) * 16777216

/-- Go `binary.BigEndian.Uint16(data[i:])`. -/
def beUint16 (d : List Nat) (i : Nat) : Nat := getB d i * 256 + getB d (i + 1)

/-- Go `binary.BigEndian.Uint32(data[i:])`. -/
def beUint32 (d : List Nat) (i : Nat) : Nat :=
  getB d i * 16777216 + getB d (i + 1) * 65536 + getB d (i + 2) * 256 + getB d (i + 3)

/-- Go `fmt.Sprintf` fixed-width `%0wx` rendering of `n` as `w` lower-case hex
digit codes (the widths used by the source, 4 and 8, always cover the 16- and
32-bit values being printed, so the fixed width is exact). -/
def hexPad : Nat → Nat → List Nat
  | _, 0 => []
  | n, w + 1 => hexPad (n / 16) w ++ [hexDigitCode (n % 16)]

/-- Go `func (u *UUID) SetFromMSSQLBytes(data []byte) error`: reads the three
little-endian fields and the three big-endian fields, renders
`fmt.Sprintf("%08x-%04x-%04x-%04x-%04x%08x", a, b, c, d, e, f)` and parses
that canonical string through `UnmarshalText`. -/
def UUID.SetFromMSSQLBytes (data : List Nat) : Except Err UUID :=
  UUID.UnmarshalText
    (hexPad (leUint32 data 0) 8 ++ ([dash] ++ (hexPad (leUint16 data 4) 4 ++
      ([dash] ++ (hexPad (leUint16 data 6) 4 ++
        ([dash] ++ (hexPad (beUint16 data 8) 4 ++
          ([dash] ++ (hexPad (beUint16 data 10) 4 ++ hexPad (beUint32 data 12) 8)))))))))

/-- The runtime shapes a `database/sql` driver can hand to `Scan(src any)`:
`nil`, a `[]byte`, a `string`, or a value of any other type (identified by
its `%T` type name). -/
inductive ScanSrc : Type where
  | null
  | bytes (data : List Nat)
  | str (s : List Nat)
  | other (kind : String)
deriving DecidableEq

/-- Type name `%T` of an untyped `nil`. -/
def nilKind : String := "<nil>"

/-- Go `func (u *UUID) Scan(src any) error`: a 16-byte slice is decoded as MSSQL
wire format, any other byte slice and any string as canonical text, and
everything else fails with the `cannot convert` error. -/
def UUID.Scan (src : ScanSrc) : Except Err UUID :=
  match src with
  | .bytes data =>
    if data.length = Size then UUID.SetFromMSSQLBytes data
    else UUID.UnmarshalText data
  | .str s => UUID.UnmarshalText s
  | .null => .error (.cannotConvert nilKind)
  | .other kind => .error (.cannotConvert kind)

/-- Go `type NullUUID struct { UUID; Valid bool }`. -/
structure NullUUID : Type where
  uuid : UUID
  Valid : Bool
deriving DecidableEq

/-- Go `func (u *NullUUID) Scan(src any) error`: `nil` resets to the Nil UUID with
`Valid = false`; otherwise `Valid` is set to `true` *before* delegating to
`UUID.Scan`. The pair returned is (post-state, error). On a delegated error the
Go receiver's bytes may have been partially overwritten; the claims only
inspect the `Valid` flag in that case, so the byte field keeps its old value
here. -/
def NullUUID.Scan (u : NullUUID) (src : ScanSrc) : NullUUID × Option Err :=
  match src with
  | .null => ({ uuid := NilUUID, Valid := false }, none)
  | _ =>
    match UUID.Scan src with
    | .ok v => ({ uuid := v, Valid := true }, none)
    | .error e => ({ uuid := u.uuid, Valid := true }, some e)

/-- The JSON documents relevant to `NullUUID.UnmarshalJSON`: `null`, a JSON
string (its decoded byte content), or any other JSON value. -/
inductive JSONValue : Type where
  | null
  | str (s : List Nat)
  | other
deriving DecidableEq

/-- Go `json.Unmarshal(body, &value)` with `value string`: a JSON string yields
its content, JSON `null` is a no-op that leaves the zero value `""`, and any
other JSON value is a type error. -/
def jsonUnmarshalToString : JSONValue → Except Err (List Nat)
  | .null => .ok []
  | .str s => .ok s
  | .other => .error .jsonTypeError

/-- Go `func (u *NullUUID) UnmarshalJSON(body []byte) error`: decode a string,
return `Valid = false` without error when it is shorter than `CanonicalSize`,
otherwise set `Valid = true` and delegate to `UUID.UnmarshalText`. Returns
(post-state, error); as in `NullUUID.Scan` the byte field keeps its old value
when the delegated call fails. -/
def NullUUID.UnmarshalJSON (u : NullUUID) (body : JSONValue) : NullUUID × Option Err :=
  match jsonUnmarshalToString body with
  | .error e => (u, some e)
  | .ok value =>
    if value.length < CanonicalSize then
      ({ uuid := u.uuid, Valid := false }, none)
    else
      match UUID.UnmarshalText value with
      | .ok v => ({ uuid := v, Valid := true }, none)
      | .error e => ({ uuid := u.uuid, Valid := true }, some e)

/-- Go `func (g *Generator) NewV4() (UUID, error)`: the outcome of
`io.ReadFull(g.rand, u[:])` is passed in as `randRead` (the filled 16 bytes on
success). On a read error Go returns `(NilUUID, err)`, modelled as `.error`;
on success it stamps `SetVersion(V4)` then `SetVariant(VariantRFC4122)`. -/
def Generator.NewV4 (randRead : Except Err (List Nat)) : Except Err UUID :=
  match randRead with
  | .error e => .error e
  | .ok u => .ok ((UUID.SetVersion u V4).SetVariant VariantRFC4122)

/-- How one run of the `Batch` loop body can end. -/
inductive BatchOutcome : Type where
  /-- the loop exited normally and `Batch` returned `nil` -/
  | ok
  /-- `onBatch` returned an error, which `Batch` returned at once -/
  | err (e : Err)
  /-- the slice expression `uuids[i:end]` was out of range (Go run-time panic) -/
  | sliceOutOfRange
deriving DecidableEq

/-- Go slice expression `l[lo:hi]`: defined when `0 ≤ lo ≤ hi ≤ len(l)`,
otherwise a run-time panic (`none`). -/
def goSlice (l : List UUID) (lo hi : Int) : Option (List UUID) :=
  if 0 ≤ lo ∧ lo ≤ hi ∧ hi ≤ (l.length : Int) then
    some ((l.drop lo.toNat).take (hi - lo).toNat)
  else none

/-- The loop of `func Batch(uuids []UUID, size int, onBatch func([]UUID) error) error`:
`for i := 0; i < len(uuids); i += size { end := i + size; if end > len(uuids)
{ end = len(uuids) }; if err := onBatch(uuids[i:end]); err != nil { return err } }`.
Instrumented with `fuel` (the loop need not terminate for non-positive `size`;
`none` means the fuel ran out with the loop still running) and with the trace
`acc` of the chunks passed to `onBatch` so far. -/
def batchAux (uuids : List UUID) (size : Int) (onBatch : List UUID → Option Err) :
    Nat → Int → List (List UUID) → Option (List (List UUID) × BatchOutcome)
  | 0, _, _ => none
  | fuel + 1, i, acc =>
    if i < (uuids.length : Int) then
      match goSlice uuids i (if i + size > (uuids.length : Int) then (uuids.length : Int) else i + size) with
      | none => some (acc, .sliceOutOfRange)
      | some chunk =>
        match onBatch chunk with
        | some e => some (acc ++ [chunk], .err e)
        | none => batchAux uuids size onBatch fuel (i + size) (acc ++ [chunk])
    else some (acc, .ok)

/-- The `Batch` loop run with enough fuel for the terminating cases
(`uuids.length + 1` iterations suffice whenever `size ≥ 1`). -/
def Batch (uuids : List UUID) (size : Int) (onBatch : List UUID → Option Err) :
    Option (List (List UUID) × BatchOutcome) :=
  batchAux uuids size onBatch (uuids.length + 1) 0 []

/-- Modelled from the spec (claim C8's wording), for comparison with `Batch`:
process a list of chunks in order, stopping at the first handler error and
returning the chunks actually handed to the handler together with the result. -/
def specBatch : List (List UUID) → (List UUID → Option Err) → List (List UUID) × BatchOutcome
  | [], _ => ([], .ok)
  | c :: cs, h =>
    match h c with
    | some e => ([c], .err e)
    | none =>
      match specBatch cs h with
      | (tr, r) => (c :: tr, r)

/-- The four chunks the spec expects for a 10-element list and chunk size 3. -/
def chunks10 (us : List UUID) : List (List UUID) :=
  [us.take 3, (us.drop 3).take 3, (us.drop 6).take 3, us.drop 9]

/-- Predicate from the claim's words: ASCII code of a lower-case hex digit
(`0`-`9` or `a`-`f`). -/
def isLowerHex (c : Nat) : Bool := (48 ≤ c && c ≤ 57) || (97 ≤ c && c ≤ 102)

/-- The MSSQL wire bytes of the spec's literal example. -/
def mssqlWire : List Nat :=
  [0x10, 0xb8, 0xa7, 0x6b, 0xad, 0x9d, 0xd1, 0x11, 0x80, 0xb4, 0x00, 0xc0, 0x4f, 0xd4, 0x30, 0xc8]

/-- Canonical byte order of `6ba7b810-9dad-11d1-80b4-00c04fd430c8`. -/
def canonicalBytes : UUID :=
  [0x6b, 0xa7, 0xb8, 0x10, 0x9d, 0xad, 0x11, 0xd1, 0x80, 0xb4, 0x00, 0xc0, 0x4f, 0xd4, 0x30, 0xc8]

/-- ASCII codes of `"6ba7b810-9dad-11d1-80b4-00c04fd430c8"`. -/
def canonicalText : List Nat :=
  [54, 98, 97, 55, 98, 56, 49, 48, 45, 57, 100, 97, 100, 45, 49, 49, 100, 49, 45,
   56, 48, 98, 52, 45, 48, 48, 99, 48, 52, 102, 100, 52, 51, 48, 99, 56]

/-- A concrete 10-element list of UUIDs, used by witnesses. -/
def tenUUIDs : List UUID := (List.range 10).map fun k => List.replicate 16 k

/-- A concrete handler that rejects 1-element chunks, used by witnesses. -/
def oneRejecter : List UUID → Option Err := fun c =>
  if c.length = 1 then some .incorrectFormat else none

/-! ### Lemmas about the hex codec -/

theorem fromHex_hexDigitCode : ∀ n : Nat, n < 16 → fromHexChar (hexDigitCode n) = some n := by
  decide

theorem isLowerHex_hexDigitCode : ∀ n : Nat, n < 16 → isLowerHex (hexDigitCode n) = true := by
  decide

theorem hexEncode_cons (b : Nat) (rest : List Nat) :
    hexEncode (b :: rest) = hexDigitCode (b / 16) :: hexDigitCode (b % 16) :: hexEncode rest := by
  simp [hexEncode, byteHex]

theorem hexEncode_append (xs ys : List Nat) :
    hexEncode (xs ++ ys) = hexEncode xs ++ hexEncode ys := by
  simp [hexEncode]

theorem hexEncode_length (bs : List Nat) : (hexEncode bs).length = 2 * bs.length := by
  induction bs with
  | nil => rfl
  | cons b rest ih => rw [hexEncode_cons]; simp [ih]; omega

theorem isLowerHex_hexEncode (bs : List Nat) (h : ∀ b ∈ bs, b < 256) :
    ∀ c ∈ hexEncode bs, isLowerHex c = true := by
  intro c hc
  simp only [hexEncode, List.mem_flatMap] at hc
  obtain ⟨b, hb, hcb⟩ := hc
  have hb256 := h b hb
  rcases (by simpa [byteHex] using hcb :
      c = hexDigitCode (b / 16) ∨ c = hexDigitCode (b % 16)) with rfl | rfl
  · exact isLowerHex_hexDigitCode _ (by omega)
  · exact isLowerHex_hexDigitCode _ (by omega)

theorem hexDecode_hexEncode : ∀ bs : List Nat, (∀ b ∈ bs, b < 256) →
    hexDecode (hexEncode bs) = .ok bs
  | [], _ => rfl
  | b :: rest, h => by
    have hb : b < 256 := h b (by simp)
    have h1 := fromHex_hexDigitCode (b / 16) (by omega)
    have h2 := fromHex_hexDigitCode (b % 16) (by omega)
    have IH := hexDecode_hexEncode rest (fun c hc => h c (by simp [hc]))
    rw [hexEncode_cons]
    simp only [hexDecode, h1, h2, IH]
    have : b / 16 * 16 + b % 16 = b := by omega
    rw [this]

theorem hexDecode_ok_iff : ∀ l : List Nat,
    (∃ out, hexDecode l = .ok out) ↔
      (l.length % 2 = 0 ∧ ∀ c ∈ l, (fromHexChar c).isSome = true)
  | [] => by simp [hexDecode]
  | [c] => by simp [hexDecode]
  | c1 :: c2 :: rest => by
    have IH := hexDecode_ok_iff rest
    have hlen : ((c1 :: c2 :: rest).length % 2 = 0) ↔ (rest.length % 2 = 0) := by
      simp only [List.length_cons]; omega
    constructor
    · rintro ⟨out, hout⟩
      simp only [hexDecode] at hout
      cases h1 : fromHexChar c1 with
      | none => rw [h1] at hout; simp at hout
      | some a =>
        cases h2 : fromHexChar c2 with
        | none => rw [h1, h2] at hout; simp at hout
        | some b =>
          rw [h1, h2] at hout
          cases h3 : hexDecode rest with
          | error e => rw [h3] at hout; simp at hout
          | ok bs =>
            obtain ⟨heven, hall⟩ := IH.mp ⟨bs, h3⟩
            refine ⟨hlen.mpr heven, ?_⟩
            intro c hc
            rcases (by simpa using hc : c = c1 ∨ c = c2 ∨ c ∈ rest) with rfl | rfl | hc
            · simp [h1]
            · simp [h2]
            · exact hall c hc
    · rintro ⟨heven, hall⟩
      obtain ⟨a, h1⟩ := Option.isSome_iff_exists.mp (hall c1 (by simp))
      obtain ⟨b, h2⟩ := Option.isSome_iff_exists.mp (hall c2 (by simp))
      obtain ⟨bs, h3⟩ := IH.mpr ⟨hlen.mp heven, fun c hc => hall c (by simp [hc])⟩
      exact ⟨(a * 16 + b) :: bs, by simp [hexDecode, h1, h2, h3]⟩

theorem hexDecode_length : ∀ l out : List Nat, hexDecode l = .ok out →
    l.length = 2 * out.length
  | [], out => by
    intro h
    simp only [hexDecode] at h
    cases h
    rfl
  | [c], out => by intro h; simp [hexDecode] at h
  | c1 :: c2 :: rest, out => by
    intro h
    simp only [hexDecode] at h
    cases h1 : fromHexChar c1 with
    | none => rw [h1] at h; simp at h
    | some a =>
      cases h2 : fromHexChar c2 with
      | none => rw [h1, h2] at h; simp at h
      | some b =>
        rw [h1, h2] at h
        cases h3 : hexDecode rest with
        | error e => rw [h3] at h; simp at h
        | ok bs =>
          rw [h3] at h
          cases h
          have := hexDecode_length rest bs h3
          simp only [List.length_cons]
          omega

/-! ### Lemmas about the canonical 36-character shape -/

theorem getD_skip (X R : List Nat) (i : Nat) (h : X.length ≤ i) :
    (X ++ R).getD i 0 = R.getD (i - X.length) 0 := by
  simp [List.getD_eq_getElem?_getD, List.getElem?_append_right h]

theorem getD_here (X R : List Nat) (i : Nat) (h : i < X.length) :
    (X ++ R).getD i 0 = X.getD i 0 := by
  simp [List.getD_eq_getElem?_getD, List.getElem?_append_left h]

theorem getD_mem (X : List Nat) (i : Nat) (h : i < X.length) : X.getD i 0 ∈ X := by
  rw [List.getD_eq_getElem X 0 h]
  exact List.getElem_mem h

theorem getD_drop (l : List Nat) (n : Nat) : l.getD n 0 = (l.drop n).getD 0 0 := by
  simp [List.getD_eq_getElem?_getD, List.getElem?_drop]

/-- Shape facts about a canonical text `A-B-C-D-E` assembled from groups of
character lengths 8, 4, 4, 4, 12: total length, the hyphen positions, and the
recovery of each group by the offsets `UnmarshalText` uses. -/
theorem canonicalShape (A B C D E : List Nat) (hA : A.length = 8) (hB : B.length = 4)
    (hC : C.length = 4) (hD : D.length = 4) (hE : E.length = 12) :
    (A ++ ([dash] ++ (B ++ ([dash] ++ (C ++ ([dash] ++ (D ++ ([dash] ++ E)))))))).length = 36 ∧
    getB (A ++ ([dash] ++ (B ++ ([dash] ++ (C ++ ([dash] ++ (D ++ ([dash] ++ E)))))))) 8 = dash ∧
    getB (A ++ ([dash] ++ (B ++ ([dash] ++ (C ++ ([dash] ++ (D ++ ([dash] ++ E)))))))) 13 = dash ∧
    getB (A ++ ([dash] ++ (B ++ ([dash] ++ (C ++ ([dash] ++ (D ++ ([dash] ++ E)))))))) 18 = dash ∧
    getB (A ++ ([dash] ++ (B ++ ([dash] ++ (C ++ ([dash] ++ (D ++ ([dash] ++ E)))))))) 23 = dash ∧
    (A ++ ([dash] ++ (B ++ ([dash] ++ (C ++ ([dash] ++ (D ++ ([dash] ++ E)))))))).take 8 = A ∧
    ((A ++ ([dash] ++ (B ++ ([dash] ++ (C ++ ([dash] ++ (D ++ ([dash] ++ E)))))))).drop 9).take 4 = B ∧
    ((A ++ ([dash] ++ (B ++ ([dash] ++ (C ++ ([dash] ++ (D ++ ([dash] ++ E)))))))).drop 14).take 4 = C ∧
    ((A ++ ([dash] ++ (B ++ ([dash] ++ (C ++ ([dash] ++ (D ++ ([dash] ++ E)))))))).drop 19).take 4 = D ∧
    ((A ++ ([dash] ++ (B ++ ([dash] ++ (C ++ ([dash] ++ (D ++ ([dash] ++ E)))))))).drop 24).take 12 = E := by
  have hd9 : (A ++ ([dash] ++ (B ++ ([dash] ++ (C ++ ([dash] ++ (D ++ ([dash] ++ E)))))))).drop 9 =
      B ++ ([dash] ++ (C ++ ([dash] ++ (D ++ ([dash] ++ E))))) := by
    rw [← List.append_assoc]
    exact List.drop_left' (by simp [hA])
  have hd14 : (A ++ ([dash] ++ (B ++ ([dash] ++ (C ++ ([dash] ++ (D ++ ([dash] ++ E)))))))).drop 14 =
      C ++ ([dash] ++ (D ++ ([dash] ++ E))) := by
    rw [← List.append_assoc, ← List.append_assoc, ← List.append_assoc]
    exact List.drop_left' (by simp [hA, hB])
  have hd19 : (A ++ ([dash] ++ (B ++ ([dash] ++ (C ++ ([dash] ++ (D ++ ([dash] ++ E)))))))).drop 19 =
      D ++ ([dash] ++ E) := by
    rw [← List.append_assoc, ← List.append_assoc, ← List.append_assoc, ← List.append_assoc,
      ← List.append_assoc]
    exact List.drop_left' (by simp [hA, hB, hC])
  have hd24 : (A ++ ([dash] ++ (B ++ ([dash] ++ (C ++ ([dash] ++ (D ++ ([dash] ++ E)))))))).drop 24 =
      E := by
    rw [← List.append_assoc, ← List.append_assoc, ← List.append_assoc, ← List.append_assoc,
      ← List.append_assoc, ← List.append_assoc, ← List.append_assoc]
    exact List.drop_left' (by simp [hA, hB, hC, hD])
  have hd8 : (A ++ ([dash] ++ (B ++ ([dash] ++ (C ++ ([dash] ++ (D ++ ([dash] ++ E)))))))).drop 8 =
      [dash] ++ (B ++ ([dash] ++ (C ++ ([dash] ++ (D ++ ([dash] ++ E)))))) :=
    List.drop_left' hA
  have hd13 : (A ++ ([dash] ++ (B ++ ([dash] ++ (C ++ ([dash] ++ (D ++ ([dash] ++ E)))))))).drop 13 =
      [dash] ++ (C ++ ([dash] ++ (D ++ ([dash] ++ E)))) := by
    rw [← List.append_assoc, ← List.append_assoc]
    exact List.drop_left' (by simp [hA, hB])
  have hd18 : (A ++ ([dash] ++ (B ++ ([dash] ++ (C ++ ([dash] ++ (D ++ ([dash] ++ E)))))))).drop 18 =
      [dash] ++ (D ++ ([dash] ++ E)) := by
    rw [← List.append_assoc, ← List.append_assoc, ← List.append_assoc, ← List.append_assoc]
    exact List.drop_left' (by simp [hA, hB, hC])
  have hd23 : (A ++ ([dash] ++ (B ++ ([dash] ++ (C ++ ([dash] ++ (D ++ ([dash] ++ E)))))))).drop 23 =
      [dash] ++ E := by
    rw [← List.append_assoc, ← List.append_assoc, ← List.append_assoc, ← List.append_assoc,
      ← List.append_assoc, ← List.append_assoc]
    exact List.drop_left' (by simp [hA, hB, hC, hD])
  refine ⟨by simp [hA, hB, hC, hD, hE], ?_, ?_, ?_, ?_,
    List.take_left' hA, ?_, ?_, ?_, ?_⟩
  · rw [getB, getD_drop, hd8]; rfl
  · rw [getB, getD_drop, hd13]; rfl
  · rw [getB, getD_drop, hd18]; rfl
  · rw [getB, getD_drop, hd23]; rfl
  · rw [hd9]; exact List.take_left' hB
  · rw [hd14]; exact List.take_left' hC
  · rw [hd19]; exact List.take_left' hD
  · rw [hd24]; exact List.take_of_length_le (by omega)

/-- Parsing with `UnmarshalText` a well-formed canonical text built from five decodable
groups succeeds with the concatenation of the decoded groups. -/
theorem unmarshal_canonical (A B C D E g0 g1 g2 g3 g4 : List Nat)
    (hA : A.length = 8) (hB : B.length = 4) (hC : C.length = 4) (hD : D.length = 4)
    (hE : E.length = 12)
    (dA : hexDecode A = .ok g0) (dB : hexDecode B = .ok g1) (dC : hexDecode C = .ok g2)
    (dD : hexDecode D = .ok g3) (dE : hexDecode E = .ok g4) :
    UUID.UnmarshalText (A ++ ([dash] ++ (B ++ ([dash] ++ (C ++ ([dash] ++ (D ++ ([dash] ++ E)))))))) =
      .ok (g0 ++ (g1 ++ (g2 ++ (g3 ++ g4)))) := by
  obtain ⟨hlen, h8, h13, h18, h23, t0, t9, t14, t19, t24⟩ :=
    canonicalShape A B C D E hA hB hC hD hE
  rw [UUID.UnmarshalText, if_pos (by rw [hlen]; rfl), if_pos ⟨h8, h13, h18, h23⟩,
    t0, dA, t9, dB, t14, dC, t19, dD, t24, dE]

/-- Core round-trip: parsing the rendered canonical string of any 16-byte UUID
reproduces the UUID. -/
theorem string_roundtrip (u : UUID) (hlen : u.length = 16) (hb : ∀ b ∈ u, b < 256) :
    UUID.UnmarshalText (UUID.String u) = .ok u := by
  have step : UUID.UnmarshalText (UUID.String u) =
      .ok (u.take 4 ++ ((u.drop 4).take 2 ++ ((u.drop 6).take 2 ++ ((u.drop 8).take 2 ++ u.drop 10)))) := by
    apply unmarshal_canonical
    · rw [hexEncode_length, List.length_take]; omega
    · rw [hexEncode_length, List.length_take, List.length_drop]; omega
    · rw [hexEncode_length, List.length_take, List.length_drop]; omega
    · rw [hexEncode_length, List.length_take, List.length_drop]; omega
    · rw [hexEncode_length, List.length_drop]; omega
    · exact hexDecode_hexEncode _ (fun b h => hb b (List.mem_of_mem_take h))
    · exact hexDecode_hexEncode _ (fun b h => hb b (List.mem_of_mem_drop (List.mem_of_mem_take h)))
    · exact hexDecode_hexEncode _ (fun b h => hb b (List.mem_of_mem_drop (List.mem_of_mem_take h)))
    · exact hexDecode_hexEncode _ (fun b h => hb b (List.mem_of_mem_drop (List.mem_of_mem_take h)))
    · exact hexDecode_hexEncode _ (fun b h => hb b (List.mem_of_mem_drop h))
  rw [step]
  have h8 : (u.drop 8).take 2 ++ u.drop 10 = u.drop 8 := by
    have := List.take_append_drop 2 (u.drop 8)
    rwa [List.drop_drop] at this
  have h6 : (u.drop 6).take 2 ++ u.drop 8 = u.drop 6 := by
    have := List.take_append_drop 2 (u.drop 6)
    rwa [List.drop_drop] at this
  have h4 : (u.drop 4).take 2 ++ u.drop 6 = u.drop 4 := by
    have := List.take_append_drop 2 (u.drop 4)
    rwa [List.drop_drop] at this
  rw [h8, h6, h4, List.take_append_drop]

/-! ### Lemmas about the fixed-width hex rendering -/

theorem hexPad_succ (n w : Nat) : hexPad n (w + 1) = hexPad (n / 16) w ++ [hexDigitCode (n % 16)] :=
  rfl

theorem hexPad_two (b : Nat) (hb : b < 256) : hexPad b 2 = byteHex b := by
  have h2 : b / 16 % 16 = b / 16 := by omega
  rw [show (2 : Nat) = 1 + 1 from rfl, hexPad_succ, hexPad_succ, h2]
  simp [hexPad, byteHex]

theorem hexPad_step (hi lo w : Nat) (hlo : lo < 256) :
    hexPad (hi * 256 + lo) (w + 2) = hexPad hi w ++ byteHex lo := by
  have e1 : (hi * 256 + lo) % 16 = lo % 16 := by omega
  have e2 : (hi * 256 + lo) / 16 % 16 = lo / 16 := by omega
  have e3 : (hi * 256 + lo) / 16 / 16 = hi := by omega
  rw [show w + 2 = (w + 1) + 1 from rfl, hexPad_succ, hexPad_succ, e1, e2, e3]
  simp [byteHex]

theorem hexPad_le32 (d0 d1 d2 d3 : Nat) (h0 : d0 < 256) (h1 : d1 < 256) (h2 : d2 < 256)
    (h3 : d3 < 256) :
    hexPad (d0 + d1 * 256 + d2 * 65536 + d3 * 16777216) 8 = hexEncode [d3, d2, d1, d0] := by
  have e : d0 + d1 * 256 + d2 * 65536 + d3 * 16777216 =
      ((d3 * 256 + d2) * 256 + d1) * 256 + d0 := by ring
  rw [e, show (8 : Nat) = 6 + 2 from rfl, hexPad_step _ _ _ h0,
    show (6 : Nat) = 4 + 2 from rfl, hexPad_step _ _ _ h1,
    show (4 : Nat) = 2 + 2 from rfl, hexPad_step _ _ _ h2, hexPad_two _ h3]
  simp [hexEncode, byteHex]

theorem hexPad_le16 (d0 d1 : Nat) (h0 : d0 < 256) (h1 : d1 < 256) :
    hexPad (d0 + d1 * 256) 4 = hexEncode [d1, d0] := by
  have e : d0 + d1 * 256 = d1 * 256 + d0 := by ring
  rw [e, show (4 : Nat) = 2 + 2 from rfl, hexPad_step _ _ _ h0, hexPad_two _ h1]
  simp [hexEncode, byteHex]

theorem hexPad_be16 (b0 b1 : Nat) (h0 : b0 < 256) (h1 : b1 < 256) :
    hexPad (b0 * 256 + b1) 4 = hexEncode [b0, b1] := by
  rw [show (4 : Nat) = 2 + 2 from rfl, hexPad_step _ _ _ h1, hexPad_two _ h0]
  simp [hexEncode, byteHex]

theorem hexPad_be32 (b0 b1 b2 b3 : Nat) (h0 : b0 < 256) (h1 : b1 < 256) (h2 : b2 < 256)
    (h3 : b3 < 256) :
    hexPad (b0 * 16777216 + b1 * 65536 + b2 * 256 + b3) 8 = hexEncode [b0, b1, b2, b3] := by
  have e : b0 * 16777216 + b1 * 65536 + b2 * 256 + b3 =
      ((b0 * 256 + b1) * 256 + b2) * 256 + b3 := by ring
  rw [e, show (8 : Nat) = 6 + 2 from rfl, hexPad_step _ _ _ h3,
    show (6 : Nat) = 4 + 2 from rfl, hexPad_step _ _ _ h2,
    show (4 : Nat) = 2 + 2 from rfl, hexPad_step _ _ _ h1, hexPad_two _ h0]
  simp [hexEncode, byteHex]

/-- A list of length 16 is an explicit 16-element list. -/
theorem exists16 (l : List Nat) (h : l.length = 16) :
    ∃ d0 d1 d2 d3 d4 d5 d6 d7 d8 d9 d10 d11 d12 d13 d14 d15,
      l = [d0, d1, d2, d3, d4, d5, d6, d7, d8, d9, d10, d11, d12, d13, d14, d15] := by
  have step : ∀ (m : Nat) (x : List Nat), x.length = m + 1 →
      ∃ a t, x = a :: t ∧ t.length = m := by
    intro m x hx
    cases x with
    | nil => simp at hx
    | cons a t => exact ⟨a, t, rfl, by simpa using hx⟩
  obtain ⟨d0, l0, rfl, h0⟩ := step 15 l (by omega)
  obtain ⟨d1, l1, rfl, h1⟩ := step 14 l0 (by omega)
  obtain ⟨d2, l2, rfl, h2⟩ := step 13 l1 (by omega)
  obtain ⟨d3, l3, rfl, h3⟩ := step 12 l2 (by omega)
  obtain ⟨d4, l4, rfl, h4⟩ := step 11 l3 (by omega)
  obtain ⟨d5, l5, rfl, h5⟩ := step 10 l4 (by omega)
  obtain ⟨d6, l6, rfl, h6⟩ := step 9 l5 (by omega)
  obtain ⟨d7, l7, rfl, h7⟩ := step 8 l6 (by omega)
  obtain ⟨d8, l8, rfl, h8⟩ := step 7 l7 (by omega)
  obtain ⟨d9, l9, rfl, h9⟩ := step 6 l8 (by omega)
  obtain ⟨d10, l10, rfl, h10⟩ := step 5 l9 (by omega)
  obtain ⟨d11, l11, rfl, h11⟩ := step 4 l10 (by omega)
  obtain ⟨d12, l12, rfl, h12⟩ := step 3 l11 (by omega)
  obtain ⟨d13, l13, rfl, h13⟩ := step 2 l12 (by omega)
  obtain ⟨d14, l14, rfl, h14⟩ := step 1 l13 (by omega)
  obtain ⟨d15, l15, rfl, h15⟩ := step 0 l14 (by omega)
  rw [List.eq_nil_of_length_eq_zero h15]
  exact ⟨d0, d1, d2, d3, d4, d5, d6, d7, d8, d9, d10, d11, d12, d13, d14, d15, rfl⟩

theorem getD_drop' (l : List Nat) (k n : Nat) (h : k ≤ n) :
    l.getD n 0 = (l.drop k).getD (n - k) 0 := by
  have e : k + (n - k) = n := by omega
  simp [List.getD_eq_getElem?_getD, List.getElem?_drop, e]

/-- In a canonical text assembled from all-lower-hex groups, every position
other than 8, 13, 18, 23 holds a lower-case hex digit. -/
theorem canonical_hex_positions (A B C D E : List Nat) (hA : A.length = 8) (hB : B.length = 4)
    (hC : C.length = 4) (hD : D.length = 4) (hE : E.length = 12)
    (pA : ∀ c ∈ A, isLowerHex c = true) (pB : ∀ c ∈ B, isLowerHex c = true)
    (pC : ∀ c ∈ C, isLowerHex c = true) (pD : ∀ c ∈ D, isLowerHex c = true)
    (pE : ∀ c ∈ E, isLowerHex c = true) :
    ∀ i, i < 36 → i ≠ 8 → i ≠ 13 → i ≠ 18 → i ≠ 23 →
      isLowerHex ((A ++ ([dash] ++ (B ++ ([dash] ++ (C ++ ([dash] ++ (D ++ ([dash] ++ E)))))))).getD i 0) = true := by
  have hd9 : (A ++ ([dash] ++ (B ++ ([dash] ++ (C ++ ([dash] ++ (D ++ ([dash] ++ E)))))))).drop 9 =
      B ++ ([dash] ++ (C ++ ([dash] ++ (D ++ ([dash] ++ E))))) := by
    rw [← List.append_assoc]
    exact List.drop_left' (by simp [hA])
  have hd14 : (A ++ ([dash] ++ (B ++ ([dash] ++ (C ++ ([dash] ++ (D ++ ([dash] ++ E)))))))).drop 14 =
      C ++ ([dash] ++ (D ++ ([dash] ++ E))) := by
    rw [← List.append_assoc, ← List.append_assoc, ← List.append_assoc]
    exact List.drop_left' (by simp [hA, hB])
  have hd19 : (A ++ ([dash] ++ (B ++ ([dash] ++ (C ++ ([dash] ++ (D ++ ([dash] ++ E)))))))).drop 19 =
      D ++ ([dash] ++ E) := by
    rw [← List.append_assoc, ← List.append_assoc, ← List.append_assoc, ← List.append_assoc,
      ← List.append_assoc]
    exact List.drop_left' (by simp [hA, hB, hC])
  have hd24 : (A ++ ([dash] ++ (B ++ ([dash] ++ (C ++ ([dash] ++ (D ++ ([dash] ++ E)))))))).drop 24 =
      E := by
    rw [← List.append_assoc, ← List.append_assoc, ← List.append_assoc, ← List.append_assoc,
      ← List.append_assoc, ← List.append_assoc, ← List.append_assoc]
    exact List.drop_left' (by simp [hA, hB, hC, hD])
  intro i hi n8 n13 n18 n23
  rcases Nat.lt_or_ge i 8 with h | h
  · rw [getD_here _ _ _ (by omega)]
    exact pA _ (getD_mem _ _ (by omega))
  rcases Nat.lt_or_ge i 13 with h2 | h2
  · rw [getD_drop' _ 9 i (by omega), hd9, getD_here _ _ _ (by omega)]
    exact pB _ (getD_mem _ _ (by omega))
  rcases Nat.lt_or_ge i 18 with h3 | h3
  · rw [getD_drop' _ 14 i (by omega), hd14, getD_here _ _ _ (by omega)]
    exact pC _ (getD_mem _ _ (by omega))
  rcases Nat.lt_or_ge i 23 with h4 | h4
  · rw [getD_drop' _ 19 i (by omega), hd19, getD_here _ _ _ (by omega)]
    exact pD _ (getD_mem _ _ (by omega))
  · rw [getD_drop' _ 24 i (by omega), hd24]
    exact pE _ (getD_mem _ _ (by omega))

/-! ### The claims -/

/-- C1: for every 16-byte slice `data`, `SetFromMSSQLBytes` succeeds and sets the
receiver to the UUID whose canonical byte order is
`data[3] data[2] data[1] data[0] data[5] data[4] data[7] data[6] data[8] ... data[15]`
(little-endian 4-, 2-, 2-byte fields, then the verbatim big-endian tail); in
particular the spec's literal wire bytes yield
`6ba7b810-9dad-11d1-80b4-00c04fd430c8`. -/
theorem C1_setFromMSSQLBytes (data : List Nat) (hlen : data.length = 16)
    (hb : ∀ b ∈ data, b < 256) :
    UUID.SetFromMSSQLBytes data =
      .ok [getB data 3, getB data 2, getB data 1, getB data 0,
           getB data 5, getB data 4, getB data 7, getB data 6,
           getB data 8, getB data 9, getB data 10, getB data 11,
           getB data 12, getB data 13, getB data 14, getB data 15] ∧
    UUID.SetFromMSSQLBytes mssqlWire = .ok canonicalBytes ∧
    UUID.String canonicalBytes = canonicalText := by
  refine ⟨?_, by rfl, by decide⟩
  obtain ⟨d0, d1, d2, d3, d4, d5, d6, d7, d8, d9, d10, d11, d12, d13, d14, d15, rfl⟩ :=
    exists16 data hlen
  have b0 : d0 < 256 := hb _ (by simp)
  have b1 : d1 < 256 := hb _ (by simp)
  have b2 : d2 < 256 := hb _ (by simp)
  have b3 : d3 < 256 := hb _ (by simp)
  have b4 : d4 < 256 := hb _ (by simp)
  have b5 : d5 < 256 := hb _ (by simp)
  have b6 : d6 < 256 := hb _ (by simp)
  have b7 : d7 < 256 := hb _ (by simp)
  have b8 : d8 < 256 := hb _ (by simp)
  have b9 : d9 < 256 := hb _ (by simp)
  have b10 : d10 < 256 := hb _ (by simp)
  have b11 : d11 < 256 := hb _ (by simp)
  have b12 : d12 < 256 := hb _ (by simp)
  have b13 : d13 < 256 := hb _ (by simp)
  have b14 : d14 < 256 := hb _ (by simp)
  have b15 : d15 < 256 := hb _ (by simp)
  rw [UUID.SetFromMSSQLBytes]
  rw [show leUint32 [d0, d1, d2, d3, d4, d5, d6, d7, d8, d9, d10, d11, d12, d13, d14, d15] 0 =
      d0 + d1 * 256 + d2 * 65536 + d3 * 16777216 from rfl]
  rw [show leUint16 [d0, d1, d2, d3, d4, d5, d6, d7, d8, d9, d10, d11, d12, d13, d14, d15] 4 =
      d4 + d5 * 256 from rfl]
  rw [show leUint16 [d0, d1, d2, d3, d4, d5, d6, d7, d8, d9, d10, d11, d12, d13, d14, d15] 6 =
      d6 + d7 * 256 from rfl]
  rw [show beUint16 [d0, d1, d2, d3, d4, d5, d6, d7, d8, d9, d10, d11, d12, d13, d14, d15] 8 =
      d8 * 256 + d9 from rfl]
  rw [show beUint16 [d0, d1, d2, d3, d4, d5, d6, d7, d8, d9, d10, d11, d12, d13, d14, d15] 10 =
      d10 * 256 + d11 from rfl]
  rw [show beUint32 [d0, d1, d2, d3, d4, d5, d6, d7, d8, d9, d10, d11, d12, d13, d14, d15] 12 =
      d12 * 16777216 + d13 * 65536 + d14 * 256 + d15 from rfl]
  rw [hexPad_le32 d0 d1 d2 d3 b0 b1 b2 b3, hexPad_le16 d4 d5 b4 b5, hexPad_le16 d6 d7 b6 b7,
    hexPad_be16 d8 d9 b8 b9, hexPad_be16 d10 d11 b10 b11, hexPad_be32 d12 d13 d14 d15 b12 b13 b14 b15]
  rw [← hexEncode_append]
  exact unmarshal_canonical _ _ _ _ _ _ _ _ _ _
    (by simp [hexEncode_length]) (by simp [hexEncode_length]) (by simp [hexEncode_length])
    (by simp [hexEncode_length]) (by simp [hexEncode_length])
    (hexDecode_hexEncode _ (by intro b hm; simp at hm; omega))
    (hexDecode_hexEncode _ (by intro b hm; simp at hm; omega))
    (hexDecode_hexEncode _ (by intro b hm; simp at hm; omega))
    (hexDecode_hexEncode _ (by intro b hm; simp at hm; omega))
    (hexDecode_hexEncode _ (by intro b hm; simp at hm; omega))

/-- Witness for C1 at the spec's literal wire bytes. -/
theorem C1_witness :
    UUID.SetFromMSSQLBytes mssqlWire =
      .ok [getB mssqlWire 3, getB mssqlWire 2, getB mssqlWire 1, getB mssqlWire 0,
           getB mssqlWire 5, getB mssqlWire 4, getB mssqlWire 7, getB mssqlWire 6,
           getB mssqlWire 8, getB mssqlWire 9, getB mssqlWire 10, getB mssqlWire 11,
           getB mssqlWire 12, getB mssqlWire 13, getB mssqlWire 14, getB mssqlWire 15] ∧
    UUID.SetFromMSSQLBytes mssqlWire = .ok canonicalBytes ∧
    UUID.String canonicalBytes = canonicalText :=
  C1_setFromMSSQLBytes mssqlWire (by decide) (by decide)

/-- C2: rendering any 16-byte UUID with `String` and parsing it back with
`UnmarshalText` reproduces it exactly, and `String` always emits exactly 36
characters: hyphens at offsets 8, 13, 18, 23, lower-case hex everywhere else. -/
theorem C2_string_roundtrip (u : UUID) (hlen : u.length = 16) (hb : ∀ b ∈ u, b < 256) :
    UUID.UnmarshalText (UUID.String u) = .ok u ∧
    (UUID.String u).length = 36 ∧
    getB (UUID.String u) 8 = dash ∧ getB (UUID.String u) 13 = dash ∧
    getB (UUID.String u) 18 = dash ∧ getB (UUID.String u) 23 = dash ∧
    (∀ i, i < 36 → i ≠ 8 → i ≠ 13 → i ≠ 18 → i ≠ 23 →
      isLowerHex ((UUID.String u).getD i 0) = true) := by
  have lA : (hexEncode (u.take 4)).length = 8 := by
    rw [hexEncode_length, List.length_take]; omega
  have lB : (hexEncode ((u.drop 4).take 2)).length = 4 := by
    rw [hexEncode_length, List.length_take, List.length_drop]; omega
  have lC : (hexEncode ((u.drop 6).take 2)).length = 4 := by
    rw [hexEncode_length, List.length_take, List.length_drop]; omega
  have lD : (hexEncode ((u.drop 8).take 2)).length = 4 := by
    rw [hexEncode_length, List.length_take, List.length_drop]; omega
  have lE : (hexEncode (u.drop 10)).length = 12 := by
    rw [hexEncode_length, List.length_drop]; omega
  obtain ⟨l36, h8, h13, h18, h23, -, -, -, -, -⟩ :=
    canonicalShape _ _ _ _ _ lA lB lC lD lE
  exact ⟨string_roundtrip u hlen hb, l36, h8, h13, h18, h23,
    canonical_hex_positions _ _ _ _ _ lA lB lC lD lE
      (isLowerHex_hexEncode _ (fun b h => hb b (List.mem_of_mem_take h)))
      (isLowerHex_hexEncode _ (fun b h => hb b (List.mem_of_mem_drop (List.mem_of_mem_take h))))
      (isLowerHex_hexEncode _ (fun b h => hb b (List.mem_of_mem_drop (List.mem_of_mem_take h))))
      (isLowerHex_hexEncode _ (fun b h => hb b (List.mem_of_mem_drop (List.mem_of_mem_take h))))
      (isLowerHex_hexEncode _ (fun b h => hb b (List.mem_of_mem_drop h)))⟩

/-- Witness for C2 at the canonical bytes of the spec's literal example. -/
theorem C2_witness :
    UUID.UnmarshalText (UUID.String canonicalBytes) = .ok canonicalBytes ∧
    (UUID.String canonicalBytes).length = 36 ∧
    getB (UUID.String canonicalBytes) 8 = dash ∧ getB (UUID.String canonicalBytes) 13 = dash ∧
    getB (UUID.String canonicalBytes) 18 = dash ∧ getB (UUID.String canonicalBytes) 23 = dash ∧
    (∀ i, i < 36 → i ≠ 8 → i ≠ 13 → i ≠ 18 → i ≠ 23 →
      isLowerHex ((UUID.String canonicalBytes).getD i 0) = true) :=
  C2_string_roundtrip canonicalBytes (by decide) (by decide)

/-- C3: `Scan` dispatches on the runtime shape of its argument: a 16-byte slice
goes to `SetFromMSSQLBytes`, any other byte slice and any string go to
`UnmarshalText`, and `nil` or a value of any other type yields the
`cannot convert` type error naming the input kind. -/
theorem C3_scan_dispatch :
    (∀ data : List Nat, data.length = 16 → UUID.Scan (.bytes data) = UUID.SetFromMSSQLBytes data) ∧
    (∀ data : List Nat, data.length ≠ 16 → UUID.Scan (.bytes data) = UUID.UnmarshalText data) ∧
    (∀ s : List Nat, UUID.Scan (.str s) = UUID.UnmarshalText s) ∧
    (∀ kind : String, UUID.Scan (.other kind) = .error (.cannotConvert kind)) ∧
    UUID.Scan .null = .error (.cannotConvert nilKind) := by
  refine ⟨?_, ?_, fun s => rfl, fun kind => rfl, rfl⟩
  · intro data h
    simp [UUID.Scan, Size, h]
  · intro data h
    simp [UUID.Scan, Size, h]

/-- Witness for C3: each dispatch branch at a concrete input. -/
theorem C3_witness :
    UUID.Scan (.bytes mssqlWire) = UUID.SetFromMSSQLBytes mssqlWire ∧
    UUID.Scan (.bytes [48]) = UUID.UnmarshalText [48] ∧
    UUID.Scan (.str canonicalText) = UUID.UnmarshalText canonicalText ∧
    UUID.Scan (.other "int") = .error (.cannotConvert "int") :=
  ⟨C3_scan_dispatch.1 mssqlWire (by decide), C3_scan_dispatch.2.1 [48] (by decide),
   C3_scan_dispatch.2.2.1 canonicalText, C3_scan_dispatch.2.2.2.1 "int"⟩

theorem version_byte_lemma : ∀ x : Nat, x < 256 → ((x &&& 15) ||| 16) >>> 4 = 1 := by decide

theorem variant_byte_lemma : ∀ x : Nat, x < 256 →
    (¬((x &&& 63) ||| 128) >>> 7 = 0) ∧ ((x &&& 63) ||| 128) >>> 6 = 2 := by decide

/-- For any successful 16-byte fill, `NewV4` stamps version nibble 1 (because
the `iota` constant `V4` equals 1) and variant RFC4122. -/
theorem newV4_version_general (bs : List Nat) (hlen : bs.length = 16)
    (hb : ∀ b ∈ bs, b < 256) :
    ∃ u, Generator.NewV4 (.ok bs) = .ok u ∧ UUID.Version u = 1 ∧
      UUID.Variant u = VariantRFC4122 := by
  obtain ⟨d0, d1, d2, d3, d4, d5, d6, d7, d8, d9, d10, d11, d12, d13, d14, d15, rfl⟩ :=
    exists16 bs hlen
  have h6 : d6 < 256 := hb _ (by simp)
  have h8 : d8 < 256 := hb _ (by simp)
  refine ⟨[d0, d1, d2, d3, d4, d5, (d6 &&& 15) ||| 16, d7, (d8 &&& 63) ||| 128, d9, d10, d11,
    d12, d13, d14, d15], rfl, ?_, ?_⟩
  · exact version_byte_lemma d6 h6
  · obtain ⟨hv1, hv2⟩ := variant_byte_lemma d8 h8
    show (if ((d8 &&& 63) ||| 128) >>> 7 = 0 then VariantNCS
      else if ((d8 &&& 63) ||| 128) >>> 6 = 2 then VariantRFC4122
      else if ((d8 &&& 63) ||| 128) >>> 5 = 6 then VariantMicrosoft else VariantFuture) =
        VariantRFC4122
    rw [if_neg hv1, if_pos hv2]

/-- C4 is a code bug: the claim (and the spec) say `Version() == 4` for a
freshly generated identifier, but the source's `const ( _ byte = iota; V4 )`
makes `V4 = 1`, so `SetVersion(V4)` stamps nibble 1 and `Version()` returns 1.
Evaluated at the all-zero 16-byte fill; the variant half of the claim holds. -/
theorem C4_newV4_version_bug :
    Generator.NewV4 (.ok (List.replicate 16 0)) =
      .ok [0, 0, 0, 0, 0, 0, 16, 0, 128, 0, 0, 0, 0, 0, 0, 0] ∧
    UUID.Version [0, 0, 0, 0, 0, 0, 16, 0, 128, 0, 0, 0, 0, 0, 0, 0] = 1 ∧
    UUID.Version [0, 0, 0, 0, 0, 0, 16, 0, 128, 0, 0, 0, 0, 0, 0, 0] ≠ 4 ∧
    UUID.Variant [0, 0, 0, 0, 0, 0, 16, 0, 128, 0, 0, 0, 0, 0, 0, 0] = VariantRFC4122 :=
  ⟨rfl, rfl, by decide, rfl⟩

theorem variant_classify_lemma : ∀ b : Nat, b < 256 →
    ((if b >>> 7 = 0 then VariantNCS else if b >>> 6 = 2 then VariantRFC4122
      else if b >>> 5 = 6 then VariantMicrosoft else VariantFuture) = VariantNCS ↔
        b >>> 7 = 0) ∧
    ((if b >>> 7 = 0 then VariantNCS else if b >>> 6 = 2 then VariantRFC4122
      else if b >>> 5 = 6 then VariantMicrosoft else VariantFuture) = VariantRFC4122 ↔
        b >>> 6 = 2) ∧
    ((if b >>> 7 = 0 then VariantNCS else if b >>> 6 = 2 then VariantRFC4122
      else if b >>> 5 = 6 then VariantMicrosoft else VariantFuture) = VariantMicrosoft ↔
        b >>> 5 = 6) ∧
    ((if b >>> 7 = 0 then VariantNCS else if b >>> 6 = 2 then VariantRFC4122
      else if b >>> 5 = 6 then VariantMicrosoft else VariantFuture) = VariantFuture ↔
        b >>> 5 = 7) ∧
    (b = 0 → (if b >>> 7 = 0 then VariantNCS else if b >>> 6 = 2 then VariantRFC4122
      else if b >>> 5 = 6 then VariantMicrosoft else VariantFuture) = VariantNCS) ∧
    (b = 128 → (if b >>> 7 = 0 then VariantNCS else if b >>> 6 = 2 then VariantRFC4122
      else if b >>> 5 = 6 then VariantMicrosoft else VariantFuture) = VariantRFC4122) ∧
    (b = 192 → (if b >>> 7 = 0 then VariantNCS else if b >>> 6 = 2 then VariantRFC4122
      else if b >>> 5 = 6 then VariantMicrosoft else VariantFuture) = VariantMicrosoft) ∧
    (b = 224 → (if b >>> 7 = 0 then VariantNCS else if b >>> 6 = 2 then VariantRFC4122
      else if b >>> 5 = 6 then VariantMicrosoft else VariantFuture) = VariantFuture) := by
  decide

/-- C6: `Variant` classifies byte 8 by nested top-bit prefixes — top bit 0 is
NCS, top bits `10` are RFC4122, `110` is Microsoft, everything else Future —
with the four boundary bytes 0x00, 0x80, 0xc0, 0xe0 landing as stated. -/
theorem C6_variant (u : UUID) (hb : getB u 8 < 256) :
    (UUID.Variant u = VariantNCS ↔ getB u 8 >>> 7 = 0) ∧
    (UUID.Variant u = VariantRFC4122 ↔ getB u 8 >>> 6 = 2) ∧
    (UUID.Variant u = VariantMicrosoft ↔ getB u 8 >>> 5 = 6) ∧
    (UUID.Variant u = VariantFuture ↔ getB u 8 >>> 5 = 7) ∧
    (getB u 8 = 0 → UUID.Variant u = VariantNCS) ∧
    (getB u 8 = 128 → UUID.Variant u = VariantRFC4122) ∧
    (getB u 8 = 192 → UUID.Variant u = VariantMicrosoft) ∧
    (getB u 8 = 224 → UUID.Variant u = VariantFuture) := by
  rw [UUID.Variant]
  exact variant_classify_lemma (getB u 8) hb

/-- Witness for C6 at the spec literal (byte 8 is 0x80). -/
theorem C6_witness : UUID.Variant canonicalBytes = VariantRFC4122 :=
  (C6_variant canonicalBytes (by decide)).2.2.2.2.2.1 (by decide)

/-- C7: `NullUUID.Scan(nil)` resets to the Nil UUID with `Valid = false` and no
error; `NullUUID.UnmarshalJSON` of JSON `null` or of a JSON string shorter than
36 characters sets `Valid = false` and returns no error. -/
theorem C7_null_handling (u0 : NullUUID) (s : List Nat) (hs : s.length < 36) :
    NullUUID.Scan u0 .null = ({ uuid := NilUUID, Valid := false }, none) ∧
    NullUUID.UnmarshalJSON u0 .null = ({ uuid := u0.uuid, Valid := false }, none) ∧
    NullUUID.UnmarshalJSON u0 (.str s) = ({ uuid := u0.uuid, Valid := false }, none) := by
  refine ⟨rfl, rfl, ?_⟩
  simp [NullUUID.UnmarshalJSON, jsonUnmarshalToString, CanonicalSize, hs]

/-- Witness for C7 with the empty JSON string. -/
theorem C7_witness :
    NullUUID.Scan ⟨NilUUID, true⟩ .null = ({ uuid := NilUUID, Valid := false }, none) ∧
    NullUUID.UnmarshalJSON ⟨NilUUID, true⟩ .null = ({ uuid := NilUUID, Valid := false }, none) ∧
    NullUUID.UnmarshalJSON ⟨NilUUID, true⟩ (.str []) = ({ uuid := NilUUID, Valid := false }, none) :=
  C7_null_handling ⟨NilUUID, true⟩ [] (by decide)

/-- C10: the `Valid` flag is set to `true` before delegation, so it remains
`true` after a failed delegated `UUID.Scan` and after a failed `UnmarshalText`
on a JSON string of at least 36 characters. -/
theorem C10_valid_before_delegation (u0 : NullUUID) (src : ScanSrc) (s : List Nat)
    (e1 e2 : Err) (hsrc : src ≠ .null) (hscan : UUID.Scan src = .error e1)
    (hs : 36 ≤ s.length) (htext : UUID.UnmarshalText s = .error e2) :
    (NullUUID.Scan u0 src).1.Valid = true ∧
    (NullUUID.UnmarshalJSON u0 (.str s)).1.Valid = true := by
  constructor
  · cases src with
    | null => exact absurd rfl hsrc
    | bytes data => simp [NullUUID.Scan, hscan]
    | str s2 => simp [NullUUID.Scan, hscan]
    | other k => simp [NullUUID.Scan, hscan]
  · simp only [NullUUID.UnmarshalJSON, jsonUnmarshalToString]
    rw [if_neg (by simp only [CanonicalSize]; omega)]
    rw [htext]

/-- Witness for C10: a 1-byte `Scan` input and a 36-char non-hex JSON string. -/
theorem C10_witness :
    (NullUUID.Scan ⟨NilUUID, false⟩ (.bytes [48])).1.Valid = true ∧
    (NullUUID.UnmarshalJSON ⟨NilUUID, false⟩ (.str (List.replicate 36 122))).1.Valid = true :=
  C10_valid_before_delegation ⟨NilUUID, false⟩ (.bytes [48]) (List.replicate 36 122)
    .incorrectLength .incorrectFormat (by decide) (by rfl) (by decide) (by rfl)

/-- C5: `UnmarshalText t` errors exactly when the length is not 36, a hyphen
position 8/13/18/23 does not hold a hyphen, or one of the five groups (taken at
offsets 0, 9, 14, 19, 24 with character lengths 8, 4, 4, 4, 12) contains a
non-hex character; on success the receiver holds the 16 decoded bytes, group
by group, in canonical order. -/
theorem C5_unmarshalText_iff (t : List Nat) :
    ((∃ e, UUID.UnmarshalText t = .error e) ↔
      (t.length ≠ 36 ∨ getB t 8 ≠ dash ∨ getB t 13 ≠ dash ∨ getB t 18 ≠ dash ∨
        getB t 23 ≠ dash ∨
        (∃ c, (c ∈ t.take 8 ∨ c ∈ (t.drop 9).take 4 ∨ c ∈ (t.drop 14).take 4 ∨
          c ∈ (t.drop 19).take 4 ∨ c ∈ (t.drop 24).take 12) ∧ fromHexChar c = none))) ∧
    (∀ bs, UUID.UnmarshalText t = .ok bs →
      bs.length = 16 ∧
      hexDecode (t.take 8) = .ok (bs.take 4) ∧
      hexDecode ((t.drop 9).take 4) = .ok ((bs.drop 4).take 2) ∧
      hexDecode ((t.drop 14).take 4) = .ok ((bs.drop 6).take 2) ∧
      hexDecode ((t.drop 19).take 4) = .ok ((bs.drop 8).take 2) ∧
      hexDecode ((t.drop 24).take 12) = .ok (bs.drop 10)) := by
  by_cases hlen : t.length = 36
  case neg =>
    have he : UUID.UnmarshalText t = .error .incorrectLength := by
      rw [UUID.UnmarshalText, if_neg (by simpa [CanonicalSize] using hlen)]
    refine ⟨⟨fun _ => Or.inl hlen, fun _ => ⟨_, he⟩⟩, fun bs h => ?_⟩
    rw [he] at h
    simp at h
  case pos =>
  by_cases hyph : getB t 8 = dash ∧ getB t 13 = dash ∧ getB t 18 = dash ∧ getB t 23 = dash
  case neg =>
    have he : UUID.UnmarshalText t = .error .incorrectFormat := by
      rw [UUID.UnmarshalText, if_pos (by simpa [CanonicalSize] using hlen), if_neg hyph]
    refine ⟨⟨fun _ => ?_, fun _ => ⟨_, he⟩⟩, fun bs h => ?_⟩
    · rcases not_and_or.mp hyph with h | hrest
      · exact Or.inr (Or.inl h)
      rcases not_and_or.mp hrest with h | hrest
      · exact Or.inr (Or.inr (Or.inl h))
      rcases not_and_or.mp hrest with h | h
      · exact Or.inr (Or.inr (Or.inr (Or.inl h)))
      · exact Or.inr (Or.inr (Or.inr (Or.inr (Or.inl h))))
    · rw [he] at h
      simp at h
  case pos =>
  obtain ⟨h8, h13, h18, h23⟩ := hyph
  have lG0 : (t.take 8).length = 8 := by rw [List.length_take]; omega
  have lG1 : ((t.drop 9).take 4).length = 4 := by
    rw [List.length_take, List.length_drop]; omega
  have lG2 : ((t.drop 14).take 4).length = 4 := by
    rw [List.length_take, List.length_drop]; omega
  have lG3 : ((t.drop 19).take 4).length = 4 := by
    rw [List.length_take, List.length_drop]; omega
  have lG4 : ((t.drop 24).take 12).length = 12 := by
    rw [List.length_take, List.length_drop]; omega
  by_cases x0 : ∀ c ∈ t.take 8, (fromHexChar c).isSome = true
  case neg =>
    obtain ⟨e, he0⟩ : ∃ e, hexDecode (t.take 8) = .error e := by
      cases hh : hexDecode (t.take 8) with
      | ok g => exact absurd ((hexDecode_ok_iff _).mp ⟨g, hh⟩).2 x0
      | error e => exact ⟨e, rfl⟩
    have he : UUID.UnmarshalText t = .error e := by
      rw [UUID.UnmarshalText, if_pos (by simpa [CanonicalSize] using hlen),
        if_pos ⟨h8, h13, h18, h23⟩, he0]
    push_neg at x0
    obtain ⟨c, hc, hcn⟩ := x0
    have hnone : fromHexChar c = none := Option.not_isSome_iff_eq_none.mp (by simpa using hcn)
    refine ⟨⟨fun _ => Or.inr (Or.inr (Or.inr (Or.inr (Or.inr ⟨c, Or.inl hc, hnone⟩)))),
      fun _ => ⟨_, he⟩⟩, fun bs h => ?_⟩
    rw [he] at h
    simp at h
  case pos =>
  obtain ⟨g0, hg0⟩ := (hexDecode_ok_iff (t.take 8)).mpr ⟨by rw [lG0], x0⟩
  by_cases x1 : ∀ c ∈ (t.drop 9).take 4, (fromHexChar c).isSome = true
  case neg =>
    obtain ⟨e, he1⟩ : ∃ e, hexDecode ((t.drop 9).take 4) = .error e := by
      cases hh : hexDecode ((t.drop 9).take 4) with
      | ok g => exact absurd ((hexDecode_ok_iff _).mp ⟨g, hh⟩).2 x1
      | error e => exact ⟨e, rfl⟩
    have he : UUID.UnmarshalText t = .error e := by
      rw [UUID.UnmarshalText, if_pos (by simpa [CanonicalSize] using hlen),
        if_pos ⟨h8, h13, h18, h23⟩, hg0, he1]
    push_neg at x1
    obtain ⟨c, hc, hcn⟩ := x1
    have hnone : fromHexChar c = none := Option.not_isSome_iff_eq_none.mp (by simpa using hcn)
    refine ⟨⟨fun _ => Or.inr (Or.inr (Or.inr (Or.inr (Or.inr ⟨c, Or.inr (Or.inl hc), hnone⟩)))),
      fun _ => ⟨_, he⟩⟩, fun bs h => ?_⟩
    rw [he] at h
    simp at h
  case pos =>
  obtain ⟨g1, hg1⟩ := (hexDecode_ok_iff ((t.drop 9).take 4)).mpr ⟨by rw [lG1], x1⟩
  by_cases x2 : ∀ c ∈ (t.drop 14).take 4, (fromHexChar c).isSome = true
  case neg =>
    obtain ⟨e, he2⟩ : ∃ e, hexDecode ((t.drop 14).take 4) = .error e := by
      cases hh : hexDecode ((t.drop 14).take 4) with
      | ok g => exact absurd ((hexDecode_ok_iff _).mp ⟨g, hh⟩).2 x2
      | error e => exact ⟨e, rfl⟩
    have he : UUID.UnmarshalText t = .error e := by
      rw [UUID.UnmarshalText, if_pos (by simpa [CanonicalSize] using hlen),
        if_pos ⟨h8, h13, h18, h23⟩, hg0, hg1, he2]
    push_neg at x2
    obtain ⟨c, hc, hcn⟩ := x2
    have hnone : fromHexChar c = none := Option.not_isSome_iff_eq_none.mp (by simpa using hcn)
    refine ⟨⟨fun _ =>
      Or.inr (Or.inr (Or.inr (Or.inr (Or.inr ⟨c, Or.inr (Or.inr (Or.inl hc)), hnone⟩)))),
      fun _ => ⟨_, he⟩⟩, fun bs h => ?_⟩
    rw [he] at h
    simp at h
  case pos =>
  obtain ⟨g2, hg2⟩ := (hexDecode_ok_iff ((t.drop 14).take 4)).mpr ⟨by rw [lG2], x2⟩
  by_cases x3 : ∀ c ∈ (t.drop 19).take 4, (fromHexChar c).isSome = true
  case neg =>
    obtain ⟨e, he3⟩ : ∃ e, hexDecode ((t.drop 19).take 4) = .error e := by
      cases hh : hexDecode ((t.drop 19).take 4) with
      | ok g => exact absurd ((hexDecode_ok_iff _).mp ⟨g, hh⟩).2 x3
      | error e => exact ⟨e, rfl⟩
    have he : UUID.UnmarshalText t = .error e := by
      rw [UUID.UnmarshalText, if_pos (by simpa [CanonicalSize] using hlen),
        if_pos ⟨h8, h13, h18, h23⟩, hg0, hg1, hg2, he3]
    push_neg at x3
    obtain ⟨c, hc, hcn⟩ := x3
    have hnone : fromHexChar c = none := Option.not_isSome_iff_eq_none.mp (by simpa using hcn)
    refine ⟨⟨fun _ =>
      Or.inr (Or.inr (Or.inr (Or.inr (Or.inr
        ⟨c, Or.inr (Or.inr (Or.inr (Or.inl hc))), hnone⟩)))),
      fun _ => ⟨_, he⟩⟩, fun bs h => ?_⟩
    rw [he] at h
    simp at h
  case pos =>
  obtain ⟨g3, hg3⟩ := (hexDecode_ok_iff ((t.drop 19).take 4)).mpr ⟨by rw [lG3], x3⟩
  by_cases x4 : ∀ c ∈ (t.drop 24).take 12, (fromHexChar c).isSome = true
  case neg =>
    obtain ⟨e, he4⟩ : ∃ e, hexDecode ((t.drop 24).take 12) = .error e := by
      cases hh : hexDecode ((t.drop 24).take 12) with
      | ok g => exact absurd ((hexDecode_ok_iff _).mp ⟨g, hh⟩).2 x4
      | error e => exact ⟨e, rfl⟩
    have he : UUID.UnmarshalText t = .error e := by
      rw [UUID.UnmarshalText, if_pos (by simpa [CanonicalSize] using hlen),
        if_pos ⟨h8, h13, h18, h23⟩, hg0, hg1, hg2, hg3, he4]
    push_neg at x4
    obtain ⟨c, hc, hcn⟩ := x4
    have hnone : fromHexChar c = none := Option.not_isSome_iff_eq_none.mp (by simpa using hcn)
    refine ⟨⟨fun _ =>
      Or.inr (Or.inr (Or.inr (Or.inr (Or.inr
        ⟨c, Or.inr (Or.inr (Or.inr (Or.inr hc))), hnone⟩)))),
      fun _ => ⟨_, he⟩⟩, fun bs h => ?_⟩
    rw [he] at h
    simp at h
  case pos =>
  obtain ⟨g4, hg4⟩ := (hexDecode_ok_iff ((t.drop 24).take 12)).mpr ⟨by rw [lG4], x4⟩
  have hok : UUID.UnmarshalText t = .ok (g0 ++ (g1 ++ (g2 ++ (g3 ++ g4)))) := by
    rw [UUID.UnmarshalText, if_pos (by simpa [CanonicalSize] using hlen),
      if_pos ⟨h8, h13, h18, h23⟩, hg0, hg1, hg2, hg3, hg4]
  have l0 : g0.length = 4 := by have := hexDecode_length _ _ hg0; omega
  have l1 : g1.length = 2 := by have := hexDecode_length _ _ hg1; omega
  have l2 : g2.length = 2 := by have := hexDecode_length _ _ hg2; omega
  have l3 : g3.length = 2 := by have := hexDecode_length _ _ hg3; omega
  have l4 : g4.length = 6 := by have := hexDecode_length _ _ hg4; omega
  constructor
  · constructor
    · rintro ⟨e, he⟩
      rw [hok] at he
      simp at he
    · intro hr
      exfalso
      rcases hr with h | h | h | h | h | ⟨c, hcmem, hcn⟩
      · exact h hlen
      · exact h h8
      · exact h h13
      · exact h h18
      · exact h h23
      · have hsome : (fromHexChar c).isSome = true := by
          rcases hcmem with m | m | m | m | m
          exacts [x0 c m, x1 c m, x2 c m, x3 c m, x4 c m]
        rw [hcn] at hsome
        simp at hsome
  · intro bs h
    rw [hok] at h
    injection h with h'
    subst h'
    refine ⟨by simp; omega, ?_, ?_, ?_, ?_, ?_⟩
    · rw [List.take_left' l0]
      exact hg0
    · rw [List.drop_left' l0, List.take_left' l1]
      exact hg1
    · rw [← List.append_assoc, List.drop_left' (by simp [l0, l1]), List.take_left' l2]
      exact hg2
    · rw [← List.append_assoc, ← List.append_assoc,
        List.drop_left' (by simp [l0, l1, l2]), List.take_left' l3]
      exact hg3
    · rw [← List.append_assoc, ← List.append_assoc, ← List.append_assoc,
        List.drop_left' (by simp [l0, l1, l2, l3])]
      exact hg4

/-- Witness for C5: the empty string fails to parse. -/
theorem C5_witness : ∃ e, UUID.UnmarshalText [] = .error e :=
  (C5_unmarshalText_iff []).1.mpr (Or.inl (by decide))

/-- C8: on a 10-element list with chunk size 3, `Batch` behaves exactly like
sequential early-exit processing of the four contiguous chunks (sizes 3, 3, 3,
1, covering the list in order): the handler sees exactly the chunks up to and
including the first failing one, and the first handler error is returned. -/
theorem batchAux_succ (us : List UUID) (size : Int) (onBatch : List UUID → Option Err)
    (fuel : Nat) (i : Int) (acc : List (List UUID)) :
    batchAux us size onBatch (fuel + 1) i acc =
      if i < (us.length : Int) then
        match goSlice us i (if i + size > (us.length : Int) then (us.length : Int) else i + size) with
        | none => some (acc, .sliceOutOfRange)
        | some chunk =>
          match onBatch chunk with
          | some e => some (acc ++ [chunk], .err e)
          | none => batchAux us size onBatch fuel (i + size) (acc ++ [chunk])
      else some (acc, .ok) := rfl

theorem C8_batch_chunks (us : List UUID) (onBatch : List UUID → Option Err)
    (h10 : us.length = 10) :
    Batch us 3 onBatch = some (specBatch (chunks10 us) onBatch) ∧
    (chunks10 us).map List.length = [3, 3, 3, 1] ∧
    (chunks10 us).flatten = us := by
  have ht : (us.drop 9).take 1 = us.drop 9 :=
    List.take_of_length_le (by rw [List.length_drop]; omega)
  refine ⟨?_, ?_, ?_⟩
  · rw [Batch, h10]
    rcases hc0 : onBatch (us.take 3) with _ | e0
    · rcases hc1 : onBatch ((us.drop 3).take 3) with _ | e1
      · rcases hc2 : onBatch ((us.drop 6).take 3) with _ | e2
        · rcases hc3 : onBatch (us.drop 9) with _ | e3
          · simp [batchAux, goSlice, h10, ht, hc0, hc1, hc2, hc3, specBatch, chunks10]
          · simp [batchAux, goSlice, h10, ht, hc0, hc1, hc2, hc3, specBatch, chunks10]
        · simp [batchAux, goSlice, h10, ht, hc0, hc1, hc2, specBatch, chunks10]
      · simp [batchAux, goSlice, h10, ht, hc0, hc1, specBatch, chunks10]
    · simp [batchAux, goSlice, h10, ht, hc0, specBatch, chunks10]
  · simp [chunks10, List.length_take, List.length_drop, h10]
  · show us.take 3 ++ ((us.drop 3).take 3 ++ ((us.drop 6).take 3 ++ (us.drop 9 ++ []))) = us
    rw [List.append_nil]
    have h6 : (us.drop 6).take 3 ++ us.drop 9 = us.drop 6 := by
      have := List.take_append_drop 3 (us.drop 6)
      rwa [List.drop_drop] at this
    have h3 : (us.drop 3).take 3 ++ us.drop 6 = us.drop 3 := by
      have := List.take_append_drop 3 (us.drop 3)
      rwa [List.drop_drop] at this
    rw [h6, h3, List.take_append_drop]

/-- Witness for C8 on a concrete 10-element list with a handler that rejects
the final 1-element chunk. -/
theorem C8_witness :
    Batch tenUUIDs 3 oneRejecter = some (specBatch (chunks10 tenUUIDs) oneRejecter) ∧
    (chunks10 tenUUIDs).map List.length = [3, 3, 3, 1] ∧
    (chunks10 tenUUIDs).flatten = tenUUIDs :=
  C8_batch_chunks tenUUIDs oneRejecter (by decide)

theorem batchAux_terminates (us : List UUID) (size : Int) (onBatch : List UUID → Option Err)
    (hsz : 1 ≤ size) :
    ∀ (n : Nat) (i : Int) (acc), 0 ≤ i → (us.length : Int) ≤ i + n →
      (batchAux us size onBatch (n + 1) i acc).isSome = true := by
  intro n
  induction n with
  | zero =>
    intro i acc h0 hle
    simp only [batchAux]
    rw [if_neg (by omega)]
    simp
  | succ n ih =>
    intro i acc h0 hle
    rw [batchAux_succ]
    by_cases hlt : i < (us.length : Int)
    case neg =>
      rw [if_neg hlt]
      simp
    case pos =>
      rw [if_pos hlt]
      have hgs : goSlice us i (if i + size > (us.length : Int) then (us.length : Int) else i + size) =
          some ((us.drop i.toNat).take
            ((if i + size > (us.length : Int) then (us.length : Int) else i + size) - i).toNat) := by
        rw [goSlice, if_pos]
        refine ⟨h0, ?_, ?_⟩ <;> split <;> omega
      simp only [hgs]
      cases hob : onBatch ((us.drop i.toNat).take
          ((if i + size > (us.length : Int) then (us.length : Int) else i + size) - i).toNat) with
      | some e => simp
      | none => exact ih (i + size) _ (by omega) (by omega)

theorem batchAux_diverges (us : List UUID) (onBatch : List UUID → Option Err)
    (hne : us ≠ []) (hok : ∀ c, onBatch c = none) :
    ∀ (fuel : Nat) (acc : List (List UUID)), batchAux us 0 onBatch fuel 0 acc = none := by
  have hlen : 0 < us.length := List.length_pos.mpr hne
  intro fuel
  induction fuel with
  | zero => intro acc; rfl
  | succ n ih =>
    intro acc
    rw [batchAux_succ]
    rw [if_pos (by omega)]
    rw [show goSlice us 0 (if 0 + 0 > (us.length : Int) then (us.length : Int) else 0 + 0) =
      some [] from by
        rw [if_neg (by omega), goSlice, if_pos ⟨le_refl 0, by omega, by omega⟩]
        simp]
    show (match onBatch [] with
      | some e => some (acc ++ [[]], BatchOutcome.err e)
      | none => batchAux us 0 onBatch n (0 + 0) (acc ++ [[]])) = none
    rw [hok []]
    show batchAux us 0 onBatch n 0 (acc ++ [[]]) = none
    exact ih _

/-- C9 (amended): with `size ≥ 1`, `Batch` terminates on every finite list
(`uuids.length + 1` loop iterations always suffice). With `size = 0` and a
non-empty list, the loop index never advances, so the loop runs forever *as
long as the handler keeps succeeding* — but a handler error still terminates
the call — and with `size < 0` and a non-empty list, the first slice
expression `uuids[i:end]` is out of range (a Go run-time panic), so the loop
does not run forever either. -/
theorem C9_batch_termination (us : List UUID) (size : Int) (onBatch : List UUID → Option Err) :
    (1 ≤ size → (Batch us size onBatch).isSome = true) ∧
    (size = 0 → us ≠ [] → (∀ c, onBatch c = none) →
      ∀ (fuel : Nat) (acc : List (List UUID)), batchAux us size onBatch fuel 0 acc = none) ∧
    (size < 0 → us ≠ [] → Batch us size onBatch = some ([], .sliceOutOfRange)) := by
  refine ⟨?_, ?_, ?_⟩
  · intro hsz
    exact batchAux_terminates us size onBatch hsz us.length 0 [] (by omega) (by omega)
  · intro hsz hne hok
    subst hsz
    exact batchAux_diverges us onBatch hne hok
  · intro hsz hne
    have hlen : 0 < us.length := List.length_pos.mpr hne
    rw [Batch, batchAux_succ]
    rw [if_pos (by omega)]
    rw [show (if (0 : Int) + size > (us.length : Int) then (us.length : Int) else 0 + size) =
      0 + size from if_neg (by omega)]
    rw [show goSlice us 0 (0 + size) = none from by rw [goSlice, if_neg (by omega)]]

/-- Counterexample to C9 as stated: with `size = 0` and the non-empty list
`[NilUUID]`, a handler that returns an error makes `Batch` terminate at once
with that error — it does not run forever. -/
theorem C9_counterexample :
    Batch [NilUUID] 0 (fun _ => some Err.incorrectFormat) =
      some ([[]], .err Err.incorrectFormat) := rfl

/-- Witness for C9 on singleton lists: termination with size 1, divergence
with size 0 and an always-succeeding handler, panic with size -1. -/
theorem C9_witness :
    (Batch [NilUUID] 1 (fun _ => none)).isSome = true ∧
    batchAux [NilUUID] 0 (fun _ => none) 5 0 [] = none ∧
    Batch [NilUUID] (-1) (fun _ => none) = some ([], .sliceOutOfRange) :=
  ⟨(C9_batch_termination [NilUUID] 1 (fun _ => none)).1 (by decide),
   (C9_batch_termination [NilUUID] 0 (fun _ => none)).2.1 rfl (by decide) (fun c => rfl) 5 [],
   (C9_batch_termination [NilUUID] (-1) (fun _ => none)).2.2 (by decide) (by decide)⟩

end Mssql
